import Mathlib

/-!
Verification of the composable-architecture core (`src/Effect.ts`,
`src/Reducer.ts`, `src/Store.ts`).

Modelling conventions for the shallow embedding:
* Asynchronous producers (`(context) => Promise<Action>` and
  `(context) => AsyncGenerator<Action>`) are modelled by the sequence of
  values the underlying computation delivers; the cancellation checks that
  the library wraps around them are modelled separately in the execution
  semantics (`startEmitsFrom`), parameterised by the step at which the
  context's flag was set.  The flag of an `EffectContext` only ever goes
  from `false` to `true`, so a schedule is an optional cancellation step.
* JavaScript `Map`s are modelled as association lists (first-match lookup,
  insertion appends at the end), `null`/`undefined` as `Option`.
* Object identity (`===`) on state values is modelled as structural
  equality; JavaScript reference equality implies it.
-/

namespace JSCA

/-- Effect tree node (`EffectNode` in `src/Effect.ts`).  `promise` carries the
result the underlying async computation eventually delivers; `generator`
carries the list of elements the underlying async generator yields. -/
inductive EffectNode (α : Type) where
  | cancelScope (scope : List String)
  | cancelId (id : String)
  | action (value : α)
  | promise (id : Option String) (value : α)
  | generator (id : Option String) (value : List α)
  deriving DecidableEq

/-- `mapEffectNode` from `src/Effect.ts`: cancellation nodes pass through,
`action` and `promise` apply the transform to the single value, `generator`
applies the transform to every emitted element (the extra cancellation check
its wrapper installs lives in the execution semantics). -/
def mapEffectNode {α β : Type} (node : EffectNode α) (transform : α → β) : EffectNode β :=
  match node with
  | .cancelScope s => .cancelScope s
  | .cancelId i => .cancelId i
  | .action v => .action (transform v)
  | .promise i v => .promise i (transform v)
  | .generator i vs => .generator i (vs.map transform)

/-- The `Effect` class from `src/Effect.ts`: an optional node, an ordered list
of children, and an own scope-path segment list. -/
inductive Effect (α : Type) where
  | mk (node : Option (EffectNode α)) (children : List (Effect α)) (scope : List String)

def Effect.node {α : Type} : Effect α → Option (EffectNode α)
  | .mk n _ _ => n

def Effect.children {α : Type} : Effect α → List (Effect α)
  | .mk _ cs _ => cs

def Effect.scope {α : Type} : Effect α → List String
  | .mk _ _ sc => sc

/-- `Effect.none`: no node, no children, empty scope prefix. -/
def Effect.noneE {α : Type} : Effect α := .mk Option.none [] []

/-- `Effect.map` from `src/Effect.ts`: constructs `new Effect()` (whose
`scope` field is the default `[]`), copies the mapped node and the
recursively mapped children into it, and never copies `scope` — so the own
scope prefix of every node of the result is the empty list. -/
def Effect.map {α β : Type} : Effect α → (α → β) → Effect β
  | .mk n cs _sc, f =>
    .mk (n.map (fun x => mapEffectNode x f)) (cs.attach.map (fun c => c.1.map f)) []
termination_by e => sizeOf e
decreasing_by
  have h := List.sizeOf_lt_of_mem c.2
  simp only [Effect.mk.sizeOf_spec]
  omega

theorem Effect.map_mk {α β : Type} (n : Option (EffectNode α)) (cs : List (Effect α))
    (sc : List String) (f : α → β) :
    (Effect.mk n cs sc).map f =
      .mk (n.map (fun x => mapEffectNode x f)) (cs.map (fun c => c.map f)) [] := by
  rw [Effect.map, List.attach_map_coe cs (fun c => c.map f)]

/-- `Effect.cancellationScope` from `src/Effect.ts`: prepends (unshifts) one
segment onto this effect's own scope prefix. -/
def Effect.cancellationScope {α : Type} : Effect α → String → Effect α
  | .mk n cs sc, seg => .mk n cs (seg :: sc)

/-- `Effect.cancelScope(scope)`: a single-node effect. -/
def Effect.cancelScopeE {α : Type} (scope : List String) : Effect α :=
  .mk (some (.cancelScope scope)) [] []

/-- `Effect.cancelId(id)`: a single-node effect. -/
def Effect.cancelIdE {α : Type} (id : String) : Effect α :=
  .mk (some (.cancelId id)) [] []

/-- `Effect.isEmpty` from `src/Effect.ts`: the reference shortcut
`this === Effect.none` is subsumed by the structural test (`Effect.none` has
no node and no children); otherwise a present node makes the effect
non-empty, else all children must be empty. -/
def Effect.isEmpty {α : Type} : Effect α → Bool
  | .mk n cs _ => n.isNone && cs.attach.all (fun c => c.1.isEmpty)
termination_by e => sizeOf e
decreasing_by
  have h := List.sizeOf_lt_of_mem c.2
  simp only [Effect.mk.sizeOf_spec]
  omega

theorem Effect.isEmpty_mk {α : Type} (n : Option (EffectNode α)) (cs : List (Effect α))
    (sc : List String) :
    (Effect.mk n cs sc).isEmpty = (n.isNone && cs.all (fun c => c.isEmpty)) := by
  rw [Effect.isEmpty]
  congr 1
  rw [Bool.eq_iff_iff, List.all_eq_true, List.all_eq_true]
  simp

/-- `Effect.merge(...effects)` from `src/Effect.ts`: discard empty inputs;
`none` when nothing remains, the sole survivor when exactly one remains,
otherwise a fresh parent whose children are the survivors in order. -/
def Effect.merge {α : Type} (effects : List (Effect α)) : Effect α :=
  match effects.filter (fun x => !x.isEmpty) with
  | [] => Effect.noneE
  | [e] => e
  | es => .mk Option.none es []

theorem attachFlatMap {α β : Type} (l : List α) (f : α → List β) :
    (l.attach.flatMap fun c => f c.1) = l.flatMap f := by
  rw [List.flatMap_def, List.flatMap_def, List.attach_map_coe l f]

/-- Induction principle for the nested `Effect` tree. -/
theorem effectInd {α : Type} {motive : Effect α → Prop}
    (h : ∀ n cs sc, (∀ c ∈ cs, motive c) → motive (.mk n cs sc)) :
    ∀ e, motive e
  | .mk n cs sc => h n cs sc (fun c hc => effectInd h c)
termination_by e => sizeOf e
decreasing_by
  have h2 := List.sizeOf_lt_of_mem hc
  simp only [Effect.mk.sizeOf_spec]
  omega

/-- `ResolvedEffect` from `src/Effect.ts`.  A `long-running` unit bundles the
optional id, the accumulated scope path, and the start function; the start
function is modelled by the sequence of values the underlying computation
delivers (one element for a `promise` node, the generator's elements for a
`generator` node); the per-element cancellation check it performs is the
execution semantics `startEmitsFrom` below. -/
inductive ResolvedEffect (α : Type) where
  | cancelScope (scope : List String)
  | cancelId (id : String)
  | action (value : α)
  | longRunning (id : Option String) (scope : List String) (emits : List α)
  deriving DecidableEq

/-- `resolveEffectNode` from `src/Effect.ts`: `cancel-scope` gets the
accumulated scope prepended to its own path; `cancel-id` and `action` pass
through; `promise`/`generator` become a `long-running` unit under the
accumulated scope carrying the node's id (a fresh `EffectContext` is
allocated at this point in the source; context identity is modelled at the
store layer, where each resolved unit is processed exactly once). -/
def resolveEffectNode {α : Type} (effectNode : EffectNode α) (scope : List String) :
    ResolvedEffect α :=
  match effectNode with
  | .cancelScope s => .cancelScope (scope ++ s)
  | .cancelId i => .cancelId i
  | .action v => .action v
  | .promise i v => .longRunning i scope [v]
  | .generator i vs => .longRunning i scope vs

/-- `resolveEffect` from `src/Effect.ts`: empty effects resolve to `[]`;
otherwise extend the scope with the effect's own prefix, resolve the node (if
present) first, then each child in order under the extended scope. -/
def resolveEffect {α : Type} : Effect α → List String → List (ResolvedEffect α)
  | .mk n cs sc, parentScope =>
    if (Effect.mk n cs sc).isEmpty then []
    else
      (match n with
        | some node => [resolveEffectNode node (parentScope ++ sc)]
        | Option.none => []) ++
      cs.attach.flatMap (fun c => resolveEffect c.1 (parentScope ++ sc))
termination_by e => sizeOf e
decreasing_by
  have h := List.sizeOf_lt_of_mem c.2
  simp only [Effect.mk.sizeOf_spec]
  omega

theorem resolveEffect_mk {α : Type} (n : Option (EffectNode α)) (cs : List (Effect α))
    (sc : List String) (parentScope : List String) :
    resolveEffect (Effect.mk n cs sc) parentScope =
      if (Effect.mk n cs sc).isEmpty then []
      else
        (match n with
          | some node => [resolveEffectNode node (parentScope ++ sc)]
          | Option.none => []) ++
        cs.flatMap (fun c => resolveEffect c (parentScope ++ sc)) := by
  conv_lhs => rw [resolveEffect.eq_def]
  dsimp only
  congr 1
  rw [attachFlatMap cs (fun c => resolveEffect c (parentScope ++ sc))]

/-- The traversal the specification describes for `resolveEffect`
(§4.2): unconditionally, the node's resolved unit under the extended scope
first, then each child's units under the same extended scope in child order
— pre-order, with no emptiness short-circuit. -/
def resolvePreOrder {α : Type} : Effect α → List String → List (ResolvedEffect α)
  | .mk n cs sc, parentScope =>
    (match n with
      | some node => [resolveEffectNode node (parentScope ++ sc)]
      | Option.none => []) ++
    cs.attach.flatMap (fun c => resolvePreOrder c.1 (parentScope ++ sc))
termination_by e => sizeOf e
decreasing_by
  have h := List.sizeOf_lt_of_mem c.2
  simp only [Effect.mk.sizeOf_spec]
  omega

theorem resolvePreOrder_mk {α : Type} (n : Option (EffectNode α)) (cs : List (Effect α))
    (sc : List String) (parentScope : List String) :
    resolvePreOrder (Effect.mk n cs sc) parentScope =
      (match n with
        | some node => [resolveEffectNode node (parentScope ++ sc)]
        | Option.none => []) ++
      cs.flatMap (fun c => resolvePreOrder c (parentScope ++ sc)) := by
  conv_lhs => rw [resolvePreOrder.eq_def]
  dsimp only
  congr 1
  rw [attachFlatMap cs (fun c => resolvePreOrder c (parentScope ++ sc))]

/-- `EffectContext` from `src/Effect.ts`: the cancellation flag plus the
optional `onCancellation` cleanup hook, modelled by a counter of how many
times the hook has fired. -/
structure EffectContext where
  isCancelled : Bool
  cleanupRuns : Nat
  deriving DecidableEq

/-- A freshly constructed `EffectContext`: not cancelled, hook never fired. -/
def EffectContext.new : EffectContext := ⟨false, 0⟩

/-- `EffectContext.cancel` from `src/Effect.ts`: an early return when the flag
is already set; otherwise set the flag and invoke the cleanup hook. -/
def EffectContext.cancel (c : EffectContext) : EffectContext :=
  if c.isCancelled then c else { isCancelled := true, cleanupRuns := c.cleanupRuns + 1 }

/-- `n` successive invocations of `cancel` on the same context. -/
def cancelTimes : Nat → EffectContext → EffectContext
  | 0, c => c
  | n + 1, c => cancelTimes n c.cancel

/-- The context's flag as observed at check number `i`.  `cancelAt = some c`
means `cancel()` ran between checks `c - 1` and `c`; `none` means it never
ran.  A flag only ever moves from `false` to `true`, which this
representation bakes in. -/
def flagAt (cancelAt : Option Nat) (i : Nat) : Bool :=
  match cancelAt with
  | Option.none => false
  | some c => decide (c ≤ i)

/-- The loop of the `start` function built by `resolveEffectNode` in
`src/Effect.ts`: for each element the underlying computation delivers, it
reads `context.isCancelled` immediately before the delivery and yields the
element only when the flag is unset (`if (!context.isCancelled) yield`); a
suppressed element does not stop the loop, the next element is checked
again.  `i` is the index of the next check. -/
def startEmitsFrom {α : Type} : List α → Option Nat → Nat → List α
  | [], _, _ => []
  | v :: rest, cancelAt, i =>
    if flagAt cancelAt i then startEmitsFrom rest cancelAt (i + 1)
    else v :: startEmitsFrom rest cancelAt (i + 1)

/-- The full action sequence the start function yields under a given
cancellation schedule. -/
def startEmits {α : Type} (emits : List α) (cancelAt : Option Nat) : List α :=
  startEmitsFrom emits cancelAt 0

/-- `EffectContextTree` from `src/Effect.ts`: contexts registered at this
path (identified by the numbers the store allocates) and a children `Map`
keyed by path segment.  An absent (`undefined`) children map and an empty
one behave identically and are both modelled as `[]`. -/
inductive EffectContextTree where
  | mk (contexts : List Nat) (children : List (String × EffectContextTree))

def EffectContextTree.contexts : EffectContextTree → List Nat
  | .mk cs _ => cs

def EffectContextTree.children : EffectContextTree → List (String × EffectContextTree)
  | .mk _ ch => ch

/-- A freshly constructed `EffectContextTree`. -/
def EffectContextTree.empty : EffectContextTree := .mk [] []

/-- Every context id stored anywhere in the tree, own node first, then the
children in map order. -/
def EffectContextTree.allContexts : EffectContextTree → List Nat
  | .mk cs ch => cs ++ ch.attach.flatMap (fun p => allContexts p.1.2)
termination_by t => sizeOf t
decreasing_by
  obtain ⟨⟨s, u⟩, hm⟩ := p
  have h := List.sizeOf_lt_of_mem hm
  simp only [Prod.mk.sizeOf_spec, EffectContextTree.mk.sizeOf_spec] at h ⊢
  omega

theorem EffectContextTree.allContexts_mk (cs : List Nat)
    (ch : List (String × EffectContextTree)) :
    (EffectContextTree.mk cs ch).allContexts = cs ++ ch.flatMap (fun p => p.2.allContexts) := by
  rw [EffectContextTree.allContexts]
  rw [attachFlatMap ch (fun p => p.2.allContexts)]

/-- Induction principle for the nested `EffectContextTree`. -/
theorem contextTreeInd {motive : EffectContextTree → Prop}
    (h : ∀ cs ch, (∀ p ∈ ch, motive ((p : String × EffectContextTree).2)) → motive (.mk cs ch)) :
    ∀ t, motive t
  | .mk cs ch => h cs ch (fun p hp => contextTreeInd h p.2)
termination_by t => sizeOf t
decreasing_by
  obtain ⟨s, u⟩ := p
  have h2 := List.sizeOf_lt_of_mem hp
  simp only [Prod.mk.sizeOf_spec, EffectContextTree.mk.sizeOf_spec] at h2 ⊢
  omega

/-- `EffectContextTree.cancelSelf` from `src/Effect.ts`: invokes `cancel` on
every context at this node (the `this.contexts = []` reassignment inside the
`for...of` loop does not affect the iteration, which walks the array captured
at loop start), then recursively cancels every child subtree and deletes the
children map.  Returns the pruned node paired with the ids of the contexts
that were cancelled, in traversal order. -/
def EffectContextTree.cancelSelf : EffectContextTree → EffectContextTree × List Nat
  | .mk cs ch => (.mk [] [], cs ++ ch.attach.flatMap (fun p => (cancelSelf p.1.2).2))
termination_by t => sizeOf t
decreasing_by
  obtain ⟨⟨s, u⟩, hm⟩ := p
  have h := List.sizeOf_lt_of_mem hm
  simp only [Prod.mk.sizeOf_spec, EffectContextTree.mk.sizeOf_spec] at h ⊢
  omega

theorem EffectContextTree.cancelSelf_mk (cs : List Nat)
    (ch : List (String × EffectContextTree)) :
    (EffectContextTree.mk cs ch).cancelSelf =
      (.mk [] [], cs ++ ch.flatMap (fun p => (p.2.cancelSelf).2)) := by
  rw [EffectContextTree.cancelSelf]
  rw [attachFlatMap ch (fun p => (p.2.cancelSelf).2)]

/-- `EffectContextTree.cancel` from `src/Effect.ts`: an empty scope cancels
this whole subtree; otherwise follow the head segment (a missing children
map or a missing child is a no-op), cancel the rest of the path inside it,
and delete the child entry when the rest is empty. -/
def EffectContextTree.cancel : EffectContextTree → List String → EffectContextTree × List Nat
  | t, [] => t.cancelSelf
  | .mk cs ch, head :: rest =>
    match ch.lookup head with
    | Option.none => (.mk cs ch, [])
    | some child =>
      let (child', ids) := child.cancel rest
      if rest.isEmpty then (.mk cs (ch.eraseP (fun p => p.1 == head)), ids)
      else (.mk cs (ch.map (fun p => if p.1 == head then (p.1, child') else p)), ids)
termination_by _ scope => scope.length
decreasing_by
  simp

/-- `EffectContextTree.add` from `src/Effect.ts`: a cancelled context is not
registered; an empty scope pushes the context at this node; otherwise the
context is added under the head segment's child, created (and appended at
the end of the `Map`'s insertion order) when missing. -/
def EffectContextTree.add : EffectContextTree → Nat → Bool → List String → EffectContextTree
  | t, _, true, _ => t
  | .mk cs ch, ctx, false, [] => .mk (cs ++ [ctx]) ch
  | .mk cs ch, ctx, false, head :: rest =>
    match ch.lookup head with
    | some child =>
      .mk cs (ch.map (fun p =>
        if p.1 == head then (p.1, child.add ctx false rest) else p))
    | Option.none =>
      .mk cs (ch ++ [(head, (EffectContextTree.mk [] []).add ctx false rest)])
termination_by _ _ _ scope => scope.length
decreasing_by
  all_goals simp

/-- `KeyPath` from `src/PropertyPath.ts`: a total get/set accessor pair. -/
structure KeyPath (ρ υ : Type) where
  get : ρ → υ
  set : ρ → υ → ρ

/-- `CasePath` from `src/PropertyPath.ts`: a partial extract/embed accessor
pair (`extract` returns `Value | null`, modelled as `Option`). -/
structure CasePath (ρ υ : Type) where
  extract : ρ → Option υ
  embed : υ → ρ

/-- Denotation of a reducer: the result of `run` from `src/Reducer.ts`.
`run` dispatches on the reducer variant — a `ComposedReducer` forwards to
its body unchanged, a `BasicReducer`'s draft mutation is committed into a
fresh snapshot, a `PrimitiveReducer` returns its own pair — so every
variant denotes a function from state and action to a state/effect pair.
(The `DependencyValues` bag is threaded through `run` unchanged by every
combinator the claims mention and is omitted.) -/
def ReducerFn (σ α : Type) : Type := σ → α → σ × Effect α

/-- `EmptyReducer._reduce` from `src/Reducer.ts`. -/
def emptyReduce {σ α : Type} : ReducerFn σ α := fun state _ => (state, Effect.noneE)

/-- `Scope._reduce` from `src/Reducer.ts`, key-path (total state accessor)
branch: extract the child action (failure is a no-op), run the child on the
focused state, write the child state back with the setter, and map the
child's effect through the action embed. -/
def scopeKeyPathReduce {σ α σc αc : Type} (sp : KeyPath σ σc) (ap : CasePath α αc)
    (child : ReducerFn σc αc) : ReducerFn σ α :=
  fun state action =>
    match ap.extract action with
    | Option.none => (state, Effect.noneE)
    | some childAction =>
      let (childState, childEffect) := child (sp.get state) childAction
      (sp.set state childState, childEffect.map ap.embed)

/-- `Scope._reduce` from `src/Reducer.ts`, case-path (partial state accessor)
branch: extract the child state and the child action (either failure is a
no-op), run the child, embed the new child state as the new parent state,
and map the child's effect through the action embed. -/
def scopeCasePathReduce {σ α σc αc : Type} (sp : CasePath σ σc) (ap : CasePath α αc)
    (child : ReducerFn σc αc) : ReducerFn σ α :=
  fun state action =>
    match sp.extract state, ap.extract action with
    | some childState, some childAction =>
      let (newChildState, childEffect) := child childState childAction
      (sp.embed newChildState, childEffect.map ap.embed)
    | _, _ => (state, Effect.noneE)

/-- The loop body of `CombineReducers._reduce` from `src/Reducer.ts`: run
each reducer in order on the state left by its predecessor, collecting the
effects in evaluation order. -/
def combineGo {σ α : Type} (action : α) : List (ReducerFn σ α) → σ → σ × List (Effect α)
  | [], s => (s, [])
  | r :: rest, s =>
    let (ns, e) := r s action
    let (fs, effs) := combineGo action rest ns
    (fs, e :: effs)

/-- `CombineReducers._reduce` from `src/Reducer.ts`: thread the state through
the ordered sibling reducers and merge the collected effects. -/
def combineReduce {σ α : Type} (reducers : List (ReducerFn σ α)) : ReducerFn σ α :=
  fun state action =>
    let (s, effs) := combineGo action reducers state
    (s, Effect.merge effs)

/-- `_IfLetReducer.getChildId` from `src/Reducer.ts`: the identity of the
child slot, or `null` when the slot is empty. -/
def ifLetGetChildId {σ σc : Type} (sp : KeyPath σ (Option σc)) (idf : σc → String)
    (state : σ) : Option String :=
  (sp.get state).map idf

/-- `_IfLetReducer.reduceChild` from `src/Reducer.ts`: a missing child action
or an empty slot is a no-op (the latter with a console warning); otherwise
run the child on the slot's state, write the new child state back, and
return the child's effect mapped through the action embed.  The source also
builds a local `newEffect` that additionally applies
`cancellationScope(id(newChildState))`, but returns the variant without the
cancellation scope — `newEffect` is discarded. -/
def ifLetReduceChild {σ α σc αc : Type} (child : ReducerFn σc αc)
    (sp : KeyPath σ (Option σc)) (ap : CasePath α αc) (idf : σc → String) :
    ReducerFn σ α :=
  fun state action =>
    match ap.extract action with
    | Option.none => (state, Effect.noneE)
    | some childAction =>
      match sp.get state with
      | Option.none => (state, Effect.noneE)
      | some childState =>
        let (newChildState, childEffect) := child childState childAction
        let newState := sp.set state (some newChildState)
        let _newEffect := ((childEffect.map ap.embed).cancellationScope (idf newChildState))
        (newState, childEffect.map ap.embed)

/-- `_IfLetReducer._reduce` from `src/Reducer.ts`: run the child step first,
read the child identity, run the parent reducer, re-read the identity, and
when the identity changed away from a non-null prior identity append a
`cancel-scope` effect for the prior identity; merge child, parent and
cancellation effects in that order. -/
def ifLetReduce {σ α σc αc : Type} (parent : ReducerFn σ α) (child : ReducerFn σc αc)
    (sp : KeyPath σ (Option σc)) (ap : CasePath α αc) (idf : σc → String) :
    ReducerFn σ α :=
  fun state action =>
    let (s1, e1) := ifLetReduceChild child sp ap idf state action
    let oldChildId := ifLetGetChildId sp idf s1
    let (s2, e2) := parent s1 action
    let newChildId := ifLetGetChildId sp idf s2
    let cancelEffects : List (Effect α) :=
      match oldChildId with
      | Option.none => []
      | some i => if oldChildId ≠ newChildId then [Effect.cancelScopeE [i]] else []
    (s2, Effect.merge ([e1, e2] ++ cancelEffects))

/-- `_IfCaseLetReducer.getChildId` from `src/Reducer.ts`. -/
def ifCaseLetGetChildId {σ σc : Type} (sp : CasePath σ σc) (idf : σc → String)
    (state : σ) : Option String :=
  (sp.extract state).map idf

/-- `_IfCaseLetReducer.reduceChild` from `src/Reducer.ts`: like
`_IfLetReducer.reduceChild` with a case-path state accessor, embedding the
new child state as the new parent state.  The locally built
`cancellationScope`-tagged `newEffect` is likewise discarded. -/
def ifCaseLetReduceChild {σ α σc αc : Type} (child : ReducerFn σc αc)
    (sp : CasePath σ σc) (ap : CasePath α αc) (idf : σc → String) :
    ReducerFn σ α :=
  fun state action =>
    match ap.extract action with
    | Option.none => (state, Effect.noneE)
    | some childAction =>
      match sp.extract state with
      | Option.none => (state, Effect.noneE)
      | some childState =>
        let (newChildState, childEffect) := child childState childAction
        let newState := sp.embed newChildState
        let _newEffect := ((childEffect.map ap.embed).cancellationScope (idf newChildState))
        (newState, childEffect.map ap.embed)

/-- `_IfCaseLetReducer._reduce` from `src/Reducer.ts`: identical to
`_IfLetReducer._reduce` with the case-path accessors. -/
def ifCaseLetReduce {σ α σc αc : Type} (parent : ReducerFn σ α) (child : ReducerFn σc αc)
    (sp : CasePath σ σc) (ap : CasePath α αc) (idf : σc → String) :
    ReducerFn σ α :=
  fun state action =>
    let (s1, e1) := ifCaseLetReduceChild child sp ap idf state action
    let oldChildId := ifCaseLetGetChildId sp idf s1
    let (s2, e2) := parent s1 action
    let newChildId := ifCaseLetGetChildId sp idf s2
    let cancelEffects : List (Effect α) :=
      match oldChildId with
      | Option.none => []
      | some i => if oldChildId ≠ newChildId then [Effect.cancelScopeE [i]] else []
    (s2, Effect.merge ([e1, e2] ++ cancelEffects))

/-- `RootStore` from `src/Store.ts`.  Contexts are identified by the order of
their allocation (`nextCtx` is the next fresh id); `ctxCancelled` records
every context id whose `cancel()` has been invoked; `callbacks` holds the
subscriber ids (the callback functions themselves contribute nothing to the
store's state evolution). -/
structure RootStore (σ α : Type) where
  state : σ
  reducer : ReducerFn σ α
  namedEffects : List (String × Nat)
  effectTree : EffectContextTree
  ctxCancelled : List Nat
  nextCtx : Nat
  callbacks : List String

/-- `RootStore.processResolvedEffect` from `src/Store.ts`, returning the
updated store and the actions pushed onto `pendingActions`:
* `cancel-scope`: prune the effect tree at the path;
* `cancel-id`: cancel the context found in the named-effects map, if any;
* `action`: push the value onto the pending queue;
* `long-running`: when an id is present, cancel the context the
  named-effects map holds under it, if any (note the source never inserts
  anything into `namedEffects`); then allocate the fresh context and
  register it in the effect tree at the unit's scope.  The launched task
  re-enters `send` asynchronously and contributes nothing to the
  synchronous queue. -/
def processResolvedEffect {σ α : Type} (store : RootStore σ α) (x : ResolvedEffect α) :
    RootStore σ α × List α :=
  match x with
  | .cancelScope sc =>
    let (tree, ids) := store.effectTree.cancel sc
    ({ store with effectTree := tree, ctxCancelled := store.ctxCancelled ++ ids }, [])
  | .cancelId i =>
    match store.namedEffects.lookup i with
    | some ctx => ({ store with ctxCancelled := store.ctxCancelled ++ [ctx] }, [])
    | Option.none => (store, [])
  | .action v => (store, [v])
  | .longRunning id sc _emits =>
    let store :=
      match id with
      | some i =>
        match store.namedEffects.lookup i with
        | some ctx => { store with ctxCancelled := store.ctxCancelled ++ [ctx] }
        | Option.none => store
      | Option.none => store
    let ctx := store.nextCtx
    ({ store with
        effectTree := store.effectTree.add ctx (store.ctxCancelled.contains ctx) sc,
        nextCtx := ctx + 1 }, [])

/-- Processing the resolved units of one effect in order, accumulating the
pending actions they push. -/
def processResolvedList {σ α : Type} (store : RootStore σ α) :
    List (ResolvedEffect α) → RootStore σ α × List α
  | [] => (store, [])
  | x :: rest =>
    let (s1, p1) := processResolvedEffect store x
    let (s2, p2) := processResolvedList s1 rest
    (s2, p1 ++ p2)

/-- `RootStore.processAction` from `src/Store.ts`: run the root reducer,
overwrite the state, resolve the effect under the empty scope, and process
each resolved unit in order. -/
def processAction {σ α : Type} (store : RootStore σ α) (action : α) :
    RootStore σ α × List α :=
  let (newState, effect) := store.reducer store.state action
  processResolvedList { store with state := newState } (resolveEffect effect [])

/-- The queue-drain loop of `RootStore.send` from `src/Store.ts`: pop the
front of the queue, process it, append the pushed actions at the tail,
repeat until empty.  `fuel` bounds the number of processed actions (the
source loop need not terminate); `none` means the fuel ran out. -/
def drainQueue {σ α : Type} : Nat → RootStore σ α → List α → Option (RootStore σ α)
  | _, store, [] => some store
  | 0, _, _ :: _ => Option.none
  | fuel + 1, store, a :: rest =>
    let (s1, pushed) := processAction store a
    drainQueue fuel s1 (rest ++ pushed)

/-- `RootStore.send` from `src/Store.ts`: capture the state reference, drain
the queue seeded with the action, and afterwards notify every registered
subscriber with the final state unless the final state equals the captured
one.  Returns the final store and the list of notifications delivered, as
(subscriber id, delivered state) pairs. -/
def send {σ α : Type} [DecidableEq σ] (fuel : Nat) (store : RootStore σ α) (action : α) :
    Option (RootStore σ α × List (String × σ)) :=
  let oldState := store.state
  match drainQueue fuel store [action] with
  | Option.none => Option.none
  | some store =>
    if store.state = oldState then some (store, [])
    else some (store, store.callbacks.map (fun i => (i, store.state)))

theorem flagAt_none {i : Nat} : flagAt Option.none i = false := rfl

theorem startEmitsFrom_none {α : Type} (emits : List α) :
    ∀ i, startEmitsFrom emits Option.none i = emits := by
  induction emits with
  | nil => intro i; rfl
  | cons v rest ih =>
    intro i
    rw [startEmitsFrom]
    simp [flagAt, ih]

theorem startEmitsFrom_some {α : Type} (emits : List α) (c : Nat) :
    ∀ i, startEmitsFrom emits (some c) i = emits.take (c - i) := by
  induction emits with
  | nil => intro i; simp [startEmitsFrom]
  | cons v rest ih =>
    intro i
    rw [startEmitsFrom]
    by_cases h : c ≤ i
    · have h0 : c - i = 0 := by omega
      have h1 : c - (i + 1) = 0 := by omega
      simp [flagAt, h, ih, h0, h1]
    · have h0 : c - i = (c - (i + 1)) + 1 := by omega
      simp [flagAt, h, ih, h0]

theorem cancel_of_cancelled (k : Nat) :
    EffectContext.cancel { isCancelled := true, cleanupRuns := k } =
      { isCancelled := true, cleanupRuns := k } := rfl

theorem cancelTimes_cancelled (k : Nat) :
    ∀ n, cancelTimes n { isCancelled := true, cleanupRuns := k } =
      { isCancelled := true, cleanupRuns := k } := by
  intro n
  induction n with
  | zero => rfl
  | succ m ih => rw [cancelTimes, cancel_of_cancelled]; exact ih

/-- Claim C4: the start function of a resolved multi-shot (generator) node
checks the cancellation flag immediately before each delivery and yields no
element at or after the first check that observes the flag set (the yielded
sequence is exactly the elements delivered before the cancellation step,
`emits.take c`, and the whole sequence when the flag is never set); and
invoking `cancel` on a fresh context any positive number of times runs the
cleanup hook exactly once. -/
theorem c4_generator_cancellation {α : Type} (emits : List α) (c : Nat)
    (cancelCalls : Nat) (hcalls : 1 ≤ cancelCalls) :
    startEmits emits (some c) = emits.take c
    ∧ startEmits emits Option.none = emits
    ∧ cancelTimes cancelCalls EffectContext.new =
        { isCancelled := true, cleanupRuns := 1 } := by
  refine ⟨?_, ?_, ?_⟩
  · rw [startEmits, startEmitsFrom_some]
    simp
  · rw [startEmits, startEmitsFrom_none]
  · obtain ⟨m, rfl⟩ : ∃ m, cancelCalls = m + 1 := ⟨cancelCalls - 1, by omega⟩
    rw [cancelTimes]
    have h1 : EffectContext.new.cancel = { isCancelled := true, cleanupRuns := 1 } := rfl
    rw [h1, cancelTimes_cancelled]

/-- Witness for C4 at a concrete emission list, cancellation step and number
of `cancel` calls. -/
theorem c4_generator_cancellation_witness :
    startEmits [10, 20, 30] (some 2) = [10, 20]
    ∧ startEmits [10, 20, 30] Option.none = [10, 20, 30]
    ∧ cancelTimes 3 EffectContext.new = { isCancelled := true, cleanupRuns := 1 } :=
  c4_generator_cancellation [10, 20, 30] 2 3 (by decide)

theorem combineGo_fst {σ α : Type} (a : α) (rs : List (ReducerFn σ α)) :
    ∀ s, (combineGo a rs s).1 = rs.foldl (fun s r => (r s a).1) s := by
  induction rs with
  | nil => intro s; rfl
  | cons r rest ih =>
    intro s
    rw [combineGo]
    simp only [List.foldl_cons]
    exact ih (r s a).1

/-- An in-place counter increment, the concrete reducer of the claim's
`{count: 0}` scenario (the state is the `count` field). -/
def incrReduce : ReducerFn Nat Nat := fun s _ => (s + 1, Effect.noneE)

/-- Claim C6: `CombineReducers` runs the ordered sibling reducers against
the same action threading the state left-to-right — the final state is the
left fold of the siblings over the incoming state, so each sibling observes
its predecessors' updates — with all effects merged in evaluation order; in
particular two combined counter-incrementing reducers take the count from
`0` to `2` in one dispatch. -/
theorem c6_combineReducers_threading :
    (∀ (σ α : Type) (rs : List (ReducerFn σ α)) (s : σ) (a : α),
        (combineReduce rs s a).1 = rs.foldl (fun s r => (r s a).1) s)
    ∧ combineReduce [incrReduce, incrReduce] 0 0 = (2, Effect.noneE) := by
  constructor
  · intro σ α rs s a
    rw [combineReduce]
    exact combineGo_fst a rs s
  · rw [combineReduce]
    have hgo : combineGo 0 [incrReduce, incrReduce] 0 =
        (2, [Effect.noneE, Effect.noneE]) := rfl
    rw [hgo]
    have hempty : (Effect.noneE : Effect Nat).isEmpty = true := by
      rw [Effect.noneE, Effect.isEmpty_mk]; rfl
    simp [Effect.merge, List.filter, hempty]

/-- A concrete sum-typed parent state for the partial-accessor scope: the
child state is the payload of the left branch. -/
def c2StatePath : CasePath (Nat ⊕ Nat) Nat :=
  { extract := fun s => match s with | .inl n => some n | .inr _ => Option.none
    embed := Sum.inl }

/-- A concrete parent action accessor whose extraction always succeeds. -/
def c2ActionPath : CasePath Nat Nat := { extract := some, embed := fun x => x }

/-- A concrete child reducer that increments its state. -/
def c2Child : ReducerFn Nat Nat := fun s _ => (s + 1, Effect.noneE)

/-- Claim C2 counterexample: with the partial (case-path) state accessor
`c2StatePath`, parent state `Sum.inl 0` and action `0` — from which child
state `0` and child action `0` both extract successfully — the Scope
reducer does not return the parent state unchanged: the incremented child
state is embedded back into the parent. -/
theorem c2_counterexample :
    (scopeCasePathReduce c2StatePath c2ActionPath c2Child (Sum.inl 0) 0).1 ≠ Sum.inl 0 := by
  simp [scopeCasePathReduce, c2StatePath, c2ActionPath, c2Child]

/-- Claim C2 (amended): for every Scope reducer built with a partial
(case-path) state accessor, and every parent state and action from which
the child state and child action both extract successfully, the Scope
reducer returns the mutated child state written back into the parent via
the accessor's embed, and the child's effect mapped through the action
embed. -/
theorem c2_scope_casePath_writes_back {σ α σc αc : Type} (sp : CasePath σ σc)
    (ap : CasePath α αc) (child : ReducerFn σc αc) (s : σ) (a : α) (cs : σc) (ca : αc)
    (hs : sp.extract s = some cs) (ha : ap.extract a = some ca) :
    scopeCasePathReduce sp ap child s a =
      (sp.embed (child cs ca).1, ((child cs ca).2).map ap.embed) := by
  rw [scopeCasePathReduce]
  rw [hs, ha]

/-- Witness for the amended C2 at the concrete scope of the counterexample. -/
theorem c2_scope_casePath_writes_back_witness :
    c2StatePath.extract (Sum.inl 0) = some 0
    ∧ c2ActionPath.extract 0 = some 0
    ∧ scopeCasePathReduce c2StatePath c2ActionPath c2Child (Sum.inl 0) 0 =
        (c2StatePath.embed (c2Child 0 0).1, ((c2Child 0 0).2).map c2ActionPath.embed) :=
  ⟨rfl, rfl, c2_scope_casePath_writes_back c2StatePath c2ActionPath c2Child
    (Sum.inl 0) 0 0 0 rfl rfl⟩

theorem Effect.map_scope {α β : Type} (e : Effect α) (f : α → β) :
    (e.map f).scope = [] := by
  obtain ⟨n, cs, sc⟩ := e
  rw [Effect.map_mk]
  rfl

theorem Effect.cancellationScope_scope {α : Type} (e : Effect α) (seg : String) :
    (e.cancellationScope seg).scope = seg :: e.scope := by
  obtain ⟨n, cs, sc⟩ := e
  rfl

/-- The child slot of the C10 demonstration: the parent state is the
optional slot itself. -/
def c10sp : KeyPath (Option Nat) (Option Nat) :=
  { get := fun s => s, set := fun _ v => v }

def c10ap : CasePath Nat Nat := { extract := some, embed := fun x => x }

/-- A child reducer that emits a multi-shot (generator) effect. -/
def c10Child : ReducerFn Nat Nat :=
  fun s _ => (s, Effect.mk (some (.generator Option.none [s])) [] [])

def c10idf : Nat → String := fun _ => "kid"

/-- Claim C10: in both conditional-mount reducers, the effect returned from
the child-reduction step is the child's effect with actions embedded and
with no cancellation-scope tagging (its own scope prefix is empty), the
tagging the locally built discarded variant would have applied; running the
concrete demonstration, the child's long-running effect resolves under the
parent scope path alone, while the discarded `cancellationScope`-tagged
variant would have resolved it under the additional identity segment. -/
theorem c10_reduceChild_drops_cancellationScope :
    (∀ (σ α σc αc : Type) (child : ReducerFn σc αc) (sp : KeyPath σ (Option σc))
        (ap : CasePath α αc) (idf : σc → String) (s : σ) (a : α) (cs : σc) (ca : αc),
        ap.extract a = some ca → sp.get s = some cs →
        (ifLetReduceChild child sp ap idf s a).2 = ((child cs ca).2).map ap.embed
        ∧ ((ifLetReduceChild child sp ap idf s a).2).scope = []
        ∧ ((((child cs ca).2).map ap.embed).cancellationScope
            (idf (child cs ca).1)).scope =
            idf (child cs ca).1 :: (((child cs ca).2).map ap.embed).scope)
    ∧ (∀ (σ α σc αc : Type) (child : ReducerFn σc αc) (sp : CasePath σ σc)
        (ap : CasePath α αc) (idf : σc → String) (s : σ) (a : α) (cs : σc) (ca : αc),
        ap.extract a = some ca → sp.extract s = some cs →
        (ifCaseLetReduceChild child sp ap idf s a).2 = ((child cs ca).2).map ap.embed
        ∧ ((ifCaseLetReduceChild child sp ap idf s a).2).scope = [])
    ∧ resolveEffect ((ifLetReduceChild c10Child c10sp c10ap c10idf (some 5) 0).2)
        ["parent"] = [.longRunning Option.none ["parent"] [5]]
    ∧ resolveEffect (((ifLetReduceChild c10Child c10sp c10ap c10idf (some 5) 0).2
        ).cancellationScope (c10idf 5)) ["parent"] =
        [.longRunning Option.none ["parent", "kid"] [5]] := by
  refine ⟨?_, ?_, ?_, ?_⟩
  · intro σ α σc αc child sp ap idf s a cs ca ha hs
    rw [ifLetReduceChild, ha, hs]
    exact ⟨rfl, Effect.map_scope _ _, Effect.cancellationScope_scope _ _⟩
  · intro σ α σc αc child sp ap idf s a cs ca ha hs
    rw [ifCaseLetReduceChild, ha, hs]
    exact ⟨rfl, Effect.map_scope _ _⟩
  · have h1 : (ifLetReduceChild c10Child c10sp c10ap c10idf (some 5) 0).2 =
        Effect.mk (some (.generator Option.none [5])) [] [] := by
      rw [ifLetReduceChild]
      simp [c10ap, c10sp, c10Child, Effect.map_mk, mapEffectNode]
    rw [h1, resolveEffect_mk]
    simp [Effect.isEmpty_mk, resolveEffectNode]
  · have h1 : (ifLetReduceChild c10Child c10sp c10ap c10idf (some 5) 0).2 =
        Effect.mk (some (.generator Option.none [5])) [] [] := by
      rw [ifLetReduceChild]
      simp [c10ap, c10sp, c10Child, Effect.map_mk, mapEffectNode]
    rw [h1]
    have h2 : (Effect.mk (some (.generator Option.none [5])) [] []).cancellationScope
        (c10idf 5) = Effect.mk (some (.generator Option.none [5])) [] ["kid"] := rfl
    rw [h2, resolveEffect_mk]
    simp [Effect.isEmpty_mk, resolveEffectNode]

/-- The parent state of the C7 demonstration: an optional child slot whose
state is its own identity string. -/
def c7sp : KeyPath (Option String) (Option String) :=
  { get := fun s => s, set := fun _ v => v }

/-- No action addresses the child in the demonstration. -/
def c7ap : CasePath Nat Nat := { extract := fun _ => Option.none, embed := fun x => x }

def c7Child : ReducerFn String Nat := fun s _ => (s, Effect.noneE)

/-- The parent reducer replaces the slot's identity with `"y"`. -/
def c7Parent : ReducerFn (Option String) Nat := fun _ _ => (some "y", Effect.noneE)

def c7idf : String → String := fun s => s

/-- Claim C7: in both conditional-mount reducers the child identity is read
after the child step and re-read after the parent step, and when it changed
away from an existing (non-null) prior identity a `cancel-scope` effect for
the prior identity is appended after the child and parent effects; in the
concrete scenario where an action changes the slot identity from `"x"` to
`"y"`, the resolved effects include a cancel-scope for `["x"]` and none for
`["y"]`. -/
theorem c7_conditional_mount_teardown :
    (∀ (σ α σc αc : Type) (parent : ReducerFn σ α) (child : ReducerFn σc αc)
        (sp : KeyPath σ (Option σc)) (ap : CasePath α αc) (idf : σc → String)
        (s : σ) (a : α) (s1 s2 : σ) (e1 e2 : Effect α) (i : String),
        ifLetReduceChild child sp ap idf s a = (s1, e1) →
        parent s1 a = (s2, e2) →
        ifLetGetChildId sp idf s1 = some i →
        ifLetGetChildId sp idf s2 ≠ some i →
        ifLetReduce parent child sp ap idf s a =
          (s2, Effect.merge [e1, e2, Effect.cancelScopeE [i]]))
    ∧ (∀ (σ α σc αc : Type) (parent : ReducerFn σ α) (child : ReducerFn σc αc)
        (sp : CasePath σ σc) (ap : CasePath α αc) (idf : σc → String)
        (s : σ) (a : α) (s1 s2 : σ) (e1 e2 : Effect α) (i : String),
        ifCaseLetReduceChild child sp ap idf s a = (s1, e1) →
        parent s1 a = (s2, e2) →
        ifCaseLetGetChildId sp idf s1 = some i →
        ifCaseLetGetChildId sp idf s2 ≠ some i →
        ifCaseLetReduce parent child sp ap idf s a =
          (s2, Effect.merge [e1, e2, Effect.cancelScopeE [i]]))
    ∧ ResolvedEffect.cancelScope ["x"] ∈
        resolveEffect ((ifLetReduce c7Parent c7Child c7sp c7ap c7idf (some "x") 0).2) []
    ∧ ResolvedEffect.cancelScope ["y"] ∉
        resolveEffect ((ifLetReduce c7Parent c7Child c7sp c7ap c7idf (some "x") 0).2) [] := by
  have hif : ∀ (σ α σc αc : Type) (parent : ReducerFn σ α) (child : ReducerFn σc αc)
      (sp : KeyPath σ (Option σc)) (ap : CasePath α αc) (idf : σc → String)
      (s : σ) (a : α) (s1 s2 : σ) (e1 e2 : Effect α) (i : String),
      ifLetReduceChild child sp ap idf s a = (s1, e1) →
      parent s1 a = (s2, e2) →
      ifLetGetChildId sp idf s1 = some i →
      ifLetGetChildId sp idf s2 ≠ some i →
      ifLetReduce parent child sp ap idf s a =
        (s2, Effect.merge [e1, e2, Effect.cancelScopeE [i]]) := by
    intro σ α σc αc parent child sp ap idf s a s1 s2 e1 e2 i h1 h2 h3 h4
    rw [ifLetReduce, h1]
    simp only
    rw [h2]
    simp only
    rw [h3]
    simp only
    have hne : some i ≠ ifLetGetChildId sp idf s2 := fun hh => h4 hh.symm
    rw [if_pos hne]
    rfl
  refine ⟨hif, ?_, ?_, ?_⟩
  · intro σ α σc αc parent child sp ap idf s a s1 s2 e1 e2 i h1 h2 h3 h4
    rw [ifCaseLetReduce, h1]
    simp only
    rw [h2]
    simp only
    rw [h3]
    simp only
    have hne : some i ≠ ifCaseLetGetChildId sp idf s2 := fun hh => h4 hh.symm
    rw [if_pos hne]
    rfl
  · have hrun : ifLetReduce c7Parent c7Child c7sp c7ap c7idf (some "x") 0 =
        (some "y", Effect.cancelScopeE ["x"]) := by
      have h1 : ifLetReduceChild c7Child c7sp c7ap c7idf (some "x") 0 =
          (some "x", Effect.noneE) := by
        rw [ifLetReduceChild]; rfl
      have h2 := hif (Option String) Nat String Nat c7Parent c7Child c7sp c7ap c7idf
        (some "x") 0 (some "x") (some "y") Effect.noneE Effect.noneE "x" h1 rfl rfl
        (by simp [ifLetGetChildId, c7sp, c7idf])
      rw [h2 ]
      have hempty : (Effect.noneE : Effect Nat).isEmpty = true := by
        rw [Effect.noneE, Effect.isEmpty_mk]; rfl
      have hcs : (Effect.cancelScopeE ["x"] : Effect Nat).isEmpty = false := by
        rw [Effect.cancelScopeE, Effect.isEmpty_mk]; rfl
      simp [Effect.merge, List.filter, hempty, hcs]
    rw [hrun]
    rw [Effect.cancelScopeE, resolveEffect_mk]
    simp [Effect.isEmpty_mk, resolveEffectNode]
  · have hrun : ifLetReduce c7Parent c7Child c7sp c7ap c7idf (some "x") 0 =
        (some "y", Effect.cancelScopeE ["x"]) := by
      have h1 : ifLetReduceChild c7Child c7sp c7ap c7idf (some "x") 0 =
          (some "x", Effect.noneE) := by
        rw [ifLetReduceChild]; rfl
      have h2 := hif (Option String) Nat String Nat c7Parent c7Child c7sp c7ap c7idf
        (some "x") 0 (some "x") (some "y") Effect.noneE Effect.noneE "x" h1 rfl rfl
        (by simp [ifLetGetChildId, c7sp, c7idf])
      rw [h2 ]
      have hempty : (Effect.noneE : Effect Nat).isEmpty = true := by
        rw [Effect.noneE, Effect.isEmpty_mk]; rfl
      have hcs : (Effect.cancelScopeE ["x"] : Effect Nat).isEmpty = false := by
        rw [Effect.cancelScopeE, Effect.isEmpty_mk]; rfl
      simp [Effect.merge, List.filter, hempty, hcs]
    rw [hrun]
    rw [Effect.cancelScopeE, resolveEffect_mk]
    simp [Effect.isEmpty_mk, resolveEffectNode]

/-- Witness for C7: the concrete identity change from `"x"` to `"y"`
instantiating the general ifLet part. -/
theorem c7_conditional_mount_teardown_witness :
    ifLetReduce c7Parent c7Child c7sp c7ap c7idf (some "x") 0 =
      (some "y", Effect.merge [Effect.noneE, Effect.noneE, Effect.cancelScopeE ["x"]]) :=
  c7_conditional_mount_teardown.1 (Option String) Nat String Nat c7Parent c7Child c7sp
    c7ap c7idf (some "x") 0 (some "x") (some "y") Effect.noneE Effect.noneE "x"
    (by rw [ifLetReduceChild]; rfl) rfl rfl (by simp [ifLetGetChildId, c7sp, c7idf])

/-- Witness for C10: both child-reduction steps at concrete scopes. -/
theorem c10_reduceChild_drops_cancellationScope_witness :
    (ifLetReduceChild c10Child c10sp c10ap c10idf (some 5) 0).2 =
      ((c10Child 5 0).2).map c10ap.embed
    ∧ (ifCaseLetReduceChild c10Child c2StatePath c10ap c10idf (Sum.inl 5) 0).2 =
      ((c10Child 5 0).2).map c10ap.embed := by
  have h := c10_reduceChild_drops_cancellationScope
  exact ⟨(h.1 (Option Nat) Nat Nat Nat c10Child c10sp c10ap c10idf (some 5) 0 5 0
      rfl rfl).1,
    (h.2.1 (Nat ⊕ Nat) Nat Nat Nat c10Child c2StatePath c10ap c10idf (Sum.inl 5) 0 5 0
      rfl rfl).1⟩

theorem Effect.map_isEmpty {α β : Type} (f : α → β) :
    ∀ e : Effect α, (e.map f).isEmpty = e.isEmpty := by
  refine effectInd ?_
  intro n cs sc ih
  rw [Effect.map_mk, Effect.isEmpty_mk, Effect.isEmpty_mk]
  congr 1
  · cases n <;> rfl
  · rw [Bool.eq_iff_iff, List.all_eq_true, List.all_eq_true]
    constructor
    · intro h c hc
      rw [← ih c hc]
      exact h (c.map f) (List.mem_map_of_mem _ hc)
    · intro h c' hc'
      obtain ⟨c, hc, rfl⟩ := List.mem_map.mp hc'
      rw [ih c hc]
      exact h c hc

theorem mapEffectNode_comp {α β γ : Type} (nd : EffectNode α) (f : α → β) (g : β → γ) :
    mapEffectNode (mapEffectNode nd f) g = mapEffectNode nd (fun x => g (f x)) := by
  cases nd <;> simp [mapEffectNode]

theorem Effect.map_map {α β γ : Type} (f : α → β) (g : β → γ) :
    ∀ e : Effect α, (e.map f).map g = e.map (fun x => g (f x)) := by
  refine effectInd ?_
  intro n cs sc ih
  rw [Effect.map_mk, Effect.map_mk, Effect.map_mk]
  congr 1
  · cases n with
    | none => rfl
    | some nd => simp [Option.map, mapEffectNode_comp]
  · rw [List.map_map]
    exact List.map_congr_left (fun c hc => ih c hc)

/-- The pointwise action of `map` on a resolved unit: the correspondence the
specification asserts between `resolveEffect (e.map f)` and
`resolveEffect e`. -/
def mapResolvedEffect {α β : Type} (f : α → β) : ResolvedEffect α → ResolvedEffect β
  | .cancelScope s => .cancelScope s
  | .cancelId i => .cancelId i
  | .action v => .action (f v)
  | .longRunning i s es => .longRunning i s (es.map f)

/-- Forgets the scope path of a resolved unit (used to compare resolved
lists up to the scope information that `Effect.map` destroys). -/
def eraseResolvedScope {α : Type} : ResolvedEffect α → ResolvedEffect α
  | .cancelScope _ => .cancelScope []
  | .cancelId i => .cancelId i
  | .action v => .action v
  | .longRunning i _ es => .longRunning i [] es

/-- The action values of a resolved list, in order. -/
def actionValues {α : Type} : List (ResolvedEffect α) → List α
  | [] => []
  | .action v :: rest => v :: actionValues rest
  | .cancelScope _ :: rest => actionValues rest
  | .cancelId _ :: rest => actionValues rest
  | .longRunning _ _ _ :: rest => actionValues rest

theorem actionValues_map_erase {α : Type} (l : List (ResolvedEffect α)) :
    actionValues (l.map eraseResolvedScope) = actionValues l := by
  induction l with
  | nil => rfl
  | cons r rest ih =>
    cases r <;> simp only [List.map_cons, eraseResolvedScope, actionValues, ih]

theorem actionValues_map_resolved {α β : Type} (f : α → β) (l : List (ResolvedEffect α)) :
    actionValues (l.map (mapResolvedEffect f)) = (actionValues l).map f := by
  induction l with
  | nil => rfl
  | cons r rest ih =>
    cases r <;> simp only [List.map_cons, mapResolvedEffect, actionValues, ih]

theorem eraseNode_map {α β : Type} (nd : EffectNode α) (f : α → β)
    (p q : List String) :
    eraseResolvedScope (resolveEffectNode (mapEffectNode nd f) p) =
      eraseResolvedScope (mapResolvedEffect f (resolveEffectNode nd q)) := by
  cases nd <;> rfl

theorem resolve_map_erase {α β : Type} (f : α → β) :
    ∀ (e : Effect α) (ps qs : List String),
      (resolveEffect (e.map f) ps).map eraseResolvedScope =
        ((resolveEffect e qs).map (mapResolvedEffect f)).map eraseResolvedScope := by
  refine effectInd ?_
  intro n cs sc ih ps qs
  rw [Effect.map_mk, resolveEffect_mk, resolveEffect_mk]
  have hmap := Effect.map_isEmpty f (Effect.mk n cs sc)
  rw [Effect.map_mk] at hmap
  rw [hmap]
  by_cases hemp : (Effect.mk n cs sc).isEmpty
  · simp [hemp]
  · simp only [hemp, if_false, Bool.false_eq_true]
    rw [List.map_append, List.map_append, List.map_append]
    congr 1
    · cases n with
      | none => rfl
      | some nd =>
        simp only [Option.map, List.map_cons, List.map_nil]
        rw [eraseNode_map nd f (ps ++ []) (qs ++ sc)]
    · rw [List.flatMap_map, List.map_flatMap, List.map_flatMap, List.map_flatMap]
      refine List.flatMap_congr ?_
      intro c hc
      exact ih c hc (ps ++ []) (qs ++ sc)

/-- A concrete effect carrying a non-empty own scope prefix: a `cancel-scope`
node tagged with `cancellationScope "s"`. -/
def c3e : Effect Nat := (Effect.cancelScopeE ["c"]).cancellationScope "s"

/-- Claim C3 counterexample: `map` (here with the identity transform) does
not preserve the scope-path prefix — `c3e`'s own prefix `["s"]` is reset to
`[]` — and consequently the resolved lists are not under the same scopes:
the original resolves its cancel-scope node under `["s", "c"]`, the mapped
effect under `["c"]`. -/
theorem c3_counterexample :
    (c3e.map (fun n => n)).scope = []
    ∧ c3e.scope = ["s"]
    ∧ resolveEffect (c3e.map (fun n => n)) [] = [.cancelScope ["c"]]
    ∧ resolveEffect c3e [] = [.cancelScope ["s", "c"]]
    ∧ resolveEffect (c3e.map (fun n => n)) [] ≠ resolveEffect c3e [] := by
  have he : c3e = Effect.mk (some (.cancelScope ["c"])) [] ["s"] := rfl
  have hm : c3e.map (fun n => n) = Effect.mk (some (.cancelScope ["c"])) [] [] := by
    rw [he, Effect.map_mk]
    rfl
  have hr1 : resolveEffect (c3e.map (fun n => n)) [] = [.cancelScope ["c"]] := by
    rw [hm, resolveEffect_mk]
    simp [Effect.isEmpty_mk, resolveEffectNode]
  have hr2 : resolveEffect c3e [] = [.cancelScope ["s", "c"]] := by
    rw [he, resolveEffect_mk]
    simp [Effect.isEmpty_mk, resolveEffectNode]
  refine ⟨by rw [hm]; rfl, by rw [he]; rfl, hr1, hr2, ?_⟩
  rw [hr1, hr2]
  decide

/-- Claim C3 (amended): `e.map f` preserves the tree shape while rewriting
action-bearing nodes with `f`, but resets the own scope prefix of every
node to `[]`; consequently, for every parent scope, `resolveEffect (e.map
f)`'s action values equal `f` applied to `resolveEffect e`'s action values
in the same order, and the two resolved lists agree unit-by-unit up to
their scope paths (which coincide only when the tree carries no scope
prefixes of its own). -/
theorem c3_map_resolve_amended {α β : Type} (e : Effect α) (f : α → β) (ps : List String) :
    (e.map f).scope = []
    ∧ (e.map f).map (fun _ => ()) = e.map (fun _ => ())
    ∧ (resolveEffect (e.map f) ps).map eraseResolvedScope
        = ((resolveEffect e ps).map (mapResolvedEffect f)).map eraseResolvedScope
    ∧ actionValues (resolveEffect (e.map f) ps)
        = (actionValues (resolveEffect e ps)).map f := by
  refine ⟨Effect.map_scope e f, ?_, resolve_map_erase f e ps ps, ?_⟩
  · exact Effect.map_map f (fun _ => ()) e
  · calc actionValues (resolveEffect (e.map f) ps)
        = actionValues ((resolveEffect (e.map f) ps).map eraseResolvedScope) :=
          (actionValues_map_erase _).symm
      _ = actionValues (((resolveEffect e ps).map (mapResolvedEffect f)).map
            eraseResolvedScope) := by rw [resolve_map_erase f e ps ps]
      _ = actionValues ((resolveEffect e ps).map (mapResolvedEffect f)) :=
          actionValues_map_erase _
      _ = (actionValues (resolveEffect e ps)).map f := actionValues_map_resolved f _

theorem resolvePreOrder_empty {α : Type} :
    ∀ e : Effect α, e.isEmpty = true → ∀ ps, resolvePreOrder e ps = [] := by
  refine effectInd ?_
  intro n cs sc ih h ps
  rw [Effect.isEmpty_mk, Bool.and_eq_true, List.all_eq_true] at h
  obtain ⟨hn, hcs⟩ := h
  rw [resolvePreOrder_mk]
  rw [Option.isNone_iff_eq_none] at hn
  rw [hn]
  simp only [List.nil_append]
  exact List.flatMap_eq_nil_iff.mpr (fun c hc => ih c hc (hcs c hc) _)

theorem resolveEffect_eq_preorder {α : Type} :
    ∀ (e : Effect α) (ps : List String), resolveEffect e ps = resolvePreOrder e ps := by
  refine effectInd ?_
  intro n cs sc ih ps
  rw [resolveEffect_mk, resolvePreOrder_mk]
  by_cases hemp : (Effect.mk n cs sc).isEmpty = true
  · rw [if_pos hemp, ← resolvePreOrder_mk]
    exact (resolvePreOrder_empty _ hemp ps).symm
  · rw [if_neg hemp]
    congr 1
    exact List.flatMap_congr (fun c hc => ih c hc _)

/-- Claim C5: an empty effect resolves to `[]`; otherwise `resolveEffect`
produces exactly the pre-order traversal under the extended scope — the
node's resolved unit (if present) first, then each child's units under the
same extended scope in child order, sibling order preserved. -/
theorem c5_resolve_is_preorder {α : Type} (e : Effect α) (ps : List String) :
    (e.isEmpty = true → resolveEffect e ps = [])
    ∧ resolveEffect e ps = resolvePreOrder e ps := by
  constructor
  · intro h
    obtain ⟨n, cs, sc⟩ := e
    rw [resolveEffect_mk, if_pos h]
  · exact resolveEffect_eq_preorder e ps

/-- Witness for C5 at the empty effect. -/
theorem c5_resolve_is_preorder_witness :
    ((Effect.noneE : Effect Nat).isEmpty = true →
        resolveEffect (Effect.noneE : Effect Nat) ["a"] = [])
    ∧ resolveEffect (Effect.noneE : Effect Nat) ["a"] =
        resolvePreOrder (Effect.noneE : Effect Nat) ["a"]
    ∧ resolveEffect (Effect.noneE : Effect Nat) ["a"] = [] := by
  have h := c5_resolve_is_preorder (Effect.noneE : Effect Nat) ["a"]
  exact ⟨h.1, h.2, h.1 (by rw [Effect.noneE, Effect.isEmpty_mk]; rfl)⟩

theorem cancelSelf_snd : ∀ t : EffectContextTree, (t.cancelSelf).2 = t.allContexts := by
  refine contextTreeInd ?_
  intro cs ch ih
  rw [EffectContextTree.cancelSelf_mk, EffectContextTree.allContexts_mk]
  show cs ++ ch.flatMap (fun p => (p.2.cancelSelf).2) =
    cs ++ ch.flatMap (fun p => p.2.allContexts)
  congr 1
  exact List.flatMap_congr (fun p hp => ih p hp)

theorem cancel_nil (t : EffectContextTree) : t.cancel [] = t.cancelSelf := by
  rw [EffectContextTree.cancel]

theorem cancel_cons (cs : List Nat) (ch : List (String × EffectContextTree))
    (head : String) (rest : List String) :
    (EffectContextTree.mk cs ch).cancel (head :: rest) =
      (match ch.lookup head with
        | Option.none => (.mk cs ch, [])
        | some child =>
          let (child', ids) := child.cancel rest
          if rest.isEmpty then (.mk cs (ch.eraseP (fun p => p.1 == head)), ids)
          else (.mk cs (ch.map (fun p => if p.1 == head then (p.1, child') else p)), ids)) := by
  rw [EffectContextTree.cancel]

theorem cancel_single (cs : List Nat) (ch : List (String × EffectContextTree)) (a : String) :
    (EffectContextTree.mk cs ch).cancel [a] =
      (match ch.lookup a with
        | Option.none => (.mk cs ch, [])
        | some child => (.mk cs (ch.eraseP (fun p => p.1 == a)), child.allContexts)) := by
  rw [cancel_cons]
  cases hl : ch.lookup a with
  | none => rfl
  | some child =>
    simp only [hl, cancel_nil, cancelSelf_snd]
    have hpair : child.cancelSelf = ((child.cancelSelf).1, child.allContexts) := by
      rw [← cancelSelf_snd child]
    rw [hpair]
    rfl

theorem lookup_eq_none_of_not_mem_keys {β : Type}
    (ch : List (String × β)) (a : String) (h : a ∉ ch.map Prod.fst) :
    ch.lookup a = Option.none := by
  induction ch with
  | nil => rfl
  | cons p t ih =>
    obtain ⟨k, v⟩ := p
    rw [List.lookup_cons]
    have hak : (a == k) = false := by
      refine beq_eq_false_iff_ne.mpr ?_
      intro hh
      exact h (by rw [hh, List.map_cons]; exact List.mem_cons_self _ _)
    rw [hak]
    exact ih (fun hm => h (by rw [List.map_cons]; exact List.mem_cons_of_mem _ hm))

theorem lookup_eraseP_self {β : Type} (ch : List (String × β)) (a : String)
    (hk : (ch.map Prod.fst).Nodup) :
    (ch.eraseP (fun p => p.1 == a)).lookup a = Option.none := by
  induction ch with
  | nil => rfl
  | cons p t ih =>
    obtain ⟨k, v⟩ := p
    simp only [List.eraseP_cons]
    rw [List.map_cons, List.nodup_cons] at hk
    by_cases hka : k = a
    · have hb : (k == a) = true := beq_iff_eq.mpr hka
      rw [hb, cond_true]
      exact lookup_eq_none_of_not_mem_keys t a (by rw [← hka]; exact hk.1)
    · have hb : (k == a) = false := beq_eq_false_iff_ne.mpr hka
      rw [hb, cond_false]
      rw [List.lookup_cons]
      have hak : (a == k) = false := beq_eq_false_iff_ne.mpr (fun hh => hka hh.symm)
      rw [hak]
      exact ih hk.2

theorem lookup_eraseP_ne {β : Type} (ch : List (String × β)) (a b : String)
    (hab : b ≠ a) :
    (ch.eraseP (fun p => p.1 == a)).lookup b = ch.lookup b := by
  induction ch with
  | nil => rfl
  | cons p t ih =>
    obtain ⟨k, v⟩ := p
    simp only [List.eraseP_cons]
    by_cases hka : k = a
    · have hb : (k == a) = true := beq_iff_eq.mpr hka
      rw [hb, cond_true]
      rw [List.lookup_cons]
      have hbk : (b == k) = false := beq_eq_false_iff_ne.mpr (fun hh => hab (hka ▸ hh))
      rw [hbk]
    · have hb : (k == a) = false := beq_eq_false_iff_ne.mpr hka
      rw [hb, cond_false]
      rw [List.lookup_cons, List.lookup_cons]
      by_cases hbk : b = k
      · rw [beq_iff_eq.mpr hbk]
      · rw [beq_eq_false_iff_ne.mpr hbk]
        exact ih

/-- Claim C9: cancelling the empty path cancels every context stored
anywhere in the tree; cancelling `[a]` cancels exactly the contexts
registered at or below the `a` child (which is discarded from the tree),
and a sibling subtree `b`'s entry is untouched, so every context not under
`a` — in particular every context of the `b` subtree — is uncancelled. -/
theorem c9_effectContextTree_cancel_scopes (t : EffectContextTree) (a b : String)
    (hk : ((t.children).map Prod.fst).Nodup) (hab : b ≠ a) :
    (t.cancel []).2 = t.allContexts
    ∧ (t.cancel [a]).2 =
        ((t.children.lookup a).map EffectContextTree.allContexts).getD []
    ∧ ((t.cancel [a]).1).children.lookup a = Option.none
    ∧ ((t.cancel [a]).1).children.lookup b = t.children.lookup b
    ∧ (∀ x, x ∉ ((t.children.lookup a).map EffectContextTree.allContexts).getD [] →
        x ∉ (t.cancel [a]).2) := by
  obtain ⟨cs, ch⟩ := t
  have hch : (EffectContextTree.mk cs ch).children = ch := rfl
  rw [hch] at hk ⊢
  have h2 : ((EffectContextTree.mk cs ch).cancel [a]).2 =
      ((ch.lookup a).map EffectContextTree.allContexts).getD [] := by
    rw [cancel_single]
    cases hl : ch.lookup a with
    | none => rfl
    | some child => rfl
  refine ⟨?_, h2, ?_, ?_, ?_⟩
  · rw [cancel_nil, cancelSelf_snd]
  · rw [cancel_single]
    cases hl : ch.lookup a with
    | none => exact hl
    | some child => exact lookup_eraseP_self ch a hk
  · rw [cancel_single]
    cases hl : ch.lookup a with
    | none => rfl
    | some child => exact lookup_eraseP_ne ch a b hab
  · intro x hx
    rw [h2]
    exact hx

/-- A concrete two-sibling tree for the C9 witness. -/
def c9t : EffectContextTree :=
  .mk [9] [("a", .mk [1] []), ("b", .mk [2] [])]

/-- Witness for C9 on the concrete tree: the empty path cancels `9, 1, 2`;
path `["a"]` cancels exactly `[1]`, removes the `"a"` entry, keeps `"b"`'s
subtree with context `2` uncancelled. -/
theorem c9_effectContextTree_cancel_scopes_witness :
    (c9t.cancel []).2 = [9, 1, 2]
    ∧ (c9t.cancel ["a"]).2 = [1]
    ∧ ((c9t.cancel ["a"]).1).children.lookup "a" = Option.none
    ∧ ((c9t.cancel ["a"]).1).children.lookup "b" = some (.mk [2] [])
    ∧ (2 : Nat) ∉ (c9t.cancel ["a"]).2 := by
  have h := c9_effectContextTree_cancel_scopes c9t "a" "b" (by decide) (by decide)
  have hall : c9t.allContexts = [9, 1, 2] := by
    rw [c9t, EffectContextTree.allContexts_mk]
    simp [EffectContextTree.allContexts_mk]
  have hsub : ((c9t.children.lookup "a").map EffectContextTree.allContexts).getD []
      = [1] := by
    have : c9t.children.lookup "a" = some (.mk [1] []) := rfl
    rw [this]
    simp [EffectContextTree.allContexts_mk]
  refine ⟨?_, ?_, h.2.2.1, ?_, ?_⟩
  · rw [h.1, hall]
  · rw [h.2.1, hsub]
  · rw [h.2.2.2.1]
    rfl
  · refine h.2.2.2.2 2 ?_
    rw [hsub]
    decide

theorem processResolvedEffect_namedEffects {σ α : Type} (st : RootStore σ α)
    (x : ResolvedEffect α) :
    ((processResolvedEffect st x).1).namedEffects = st.namedEffects := by
  cases x with
  | cancelScope sc => rfl
  | cancelId i =>
    cases hl : st.namedEffects.lookup i <;>
      simp [processResolvedEffect.eq_def, hl]
  | action v => rfl
  | longRunning id sc emits =>
    cases id with
    | none => rfl
    | some i =>
      cases hl : st.namedEffects.lookup i <;>
        simp [processResolvedEffect.eq_def, hl]

theorem processResolvedEffect_callbacks {σ α : Type} (st : RootStore σ α)
    (x : ResolvedEffect α) :
    ((processResolvedEffect st x).1).callbacks = st.callbacks := by
  cases x with
  | cancelScope sc => rfl
  | cancelId i =>
    cases hl : st.namedEffects.lookup i <;>
      simp [processResolvedEffect.eq_def, hl]
  | action v => rfl
  | longRunning id sc emits =>
    cases id with
    | none => rfl
    | some i =>
      cases hl : st.namedEffects.lookup i <;>
        simp [processResolvedEffect.eq_def, hl]

theorem processResolvedList_callbacks {σ α : Type} :
    ∀ (xs : List (ResolvedEffect α)) (st : RootStore σ α),
      ((processResolvedList st xs).1).callbacks = st.callbacks := by
  intro xs
  induction xs with
  | nil => intro st; rfl
  | cons x rest ih =>
    intro st
    rw [processResolvedList]
    simp only
    rw [ih]
    exact processResolvedEffect_callbacks st x

theorem processAction_callbacks {σ α : Type} (st : RootStore σ α) (a : α) :
    ((processAction st a).1).callbacks = st.callbacks := by
  rw [processAction]
  exact processResolvedList_callbacks _ _

theorem drainQueue_callbacks {σ α : Type} :
    ∀ (fuel : Nat) (queue : List α) (st st' : RootStore σ α),
      drainQueue fuel st queue = some st' → st'.callbacks = st.callbacks := by
  intro fuel
  induction fuel with
  | zero =>
    intro queue st st' h
    cases queue with
    | nil => injection h with h1; rw [← h1]
    | cons a rest => exact absurd h (by rw [drainQueue]; simp)
  | succ n ih =>
    intro queue st st' h
    cases queue with
    | nil => injection h with h1; rw [← h1]
    | cons a rest =>
      rw [drainQueue] at h
      simp only at h
      have := ih (rest ++ (processAction st a).2) (processAction st a).1 st' h
      rw [this, processAction_callbacks]

theorem countP_fst_map {σ : Type} (l : List String) (c : σ) (i : String)
    (hnd : l.Nodup) (hi : i ∈ l) :
    (l.map (fun j => (j, c))).countP (fun p => p.1 == i) = 1 := by
  induction l with
  | nil => exact absurd hi (by simp)
  | cons k t ih =>
    rw [List.map_cons, List.countP_cons]
    rw [List.nodup_cons] at hnd
    by_cases hik : i = k
    · have h0 : (t.map (fun j => (j, c))).countP (fun p => p.1 == i) = 0 := by
        rw [List.countP_eq_zero]
        intro p hp
        obtain ⟨j, hj, rfl⟩ := List.mem_map.mp hp
        have : j ≠ i := fun hh => hnd.1 (by rw [← hh] at hik; rw [hik] at hj; exact hj)
        simpa using this
      rw [h0]
      have hb : ((k, c).1 == i) = true := beq_iff_eq.mpr hik.symm
      rw [hb]
      rfl
    · have hit : i ∈ t := by
        rcases List.mem_cons.mp hi with h | h
        · exact absurd h hik
        · exact h
      rw [ih hnd.2 hit]
      have hb : ((k, c).1 == i) = false := beq_eq_false_iff_ne.mpr (fun hh => hik hh.symm)
      rw [hb]
      rfl

/-- Claim C8: after the queue drains, when the final state equals the
captured one the notification list is empty; otherwise it is exactly one
notification per registered subscriber, each carrying the final state, and
with distinct subscriber ids each subscriber receives exactly one
notification.  The callback registry itself is untouched by the drain. -/
theorem c8_send_notifications {σ α : Type} [DecidableEq σ] (fuel : Nat)
    (st : RootStore σ α) (a : α) (st' : RootStore σ α) (notifs : List (String × σ))
    (h : send fuel st a = some (st', notifs)) :
    st'.callbacks = st.callbacks
    ∧ (st'.state = st.state → notifs = [])
    ∧ (st'.state ≠ st.state → notifs = st.callbacks.map (fun i => (i, st'.state)))
    ∧ (st'.state ≠ st.state → st.callbacks.Nodup →
        ∀ i ∈ st.callbacks, notifs.countP (fun p => p.1 == i) = 1) := by
  rw [send] at h
  cases hd : drainQueue fuel st [a] with
  | none => rw [hd] at h; exact absurd h (by simp)
  | some s2 =>
    rw [hd] at h
    simp only at h
    have hcb : s2.callbacks = st.callbacks := drainQueue_callbacks fuel [a] st s2 hd
    by_cases hst : s2.state = st.state
    · rw [if_pos hst] at h
      have h2 := Option.some.inj h
      have h3 : st' = s2 := (congrArg Prod.fst h2).symm
      have h4 : notifs = [] := (congrArg Prod.snd h2).symm
      subst h3
      subst h4
      exact ⟨hcb, fun _ => rfl, fun hne => absurd hst hne,
        fun hne => absurd hst hne⟩
    · rw [if_neg hst] at h
      have h2 := Option.some.inj h
      have h3 : st' = s2 := (congrArg Prod.fst h2).symm
      have h4 : notifs = s2.callbacks.map (fun i => (i, s2.state)) :=
        (congrArg Prod.snd h2).symm
      subst h3
      refine ⟨hcb, fun heq => absurd heq hst, fun _ => by rw [h4, hcb], ?_⟩
      intro _ hnd i hi
      rw [h4, hcb]
      exact countP_fst_map st.callbacks st'.state i hnd hi

/-- The concrete store of the C8 witness: one subscriber, a reducer that
increments the counter state. -/
def c8Store : RootStore Nat Nat :=
  { state := 0, reducer := incrReduce, namedEffects := [], effectTree := .empty,
    ctxCancelled := [], nextCtx := 0, callbacks := ["sub"] }

theorem resolveEffect_noneE {α : Type} (ps : List String) :
    resolveEffect (Effect.noneE : Effect α) ps = [] := by
  rw [Effect.noneE, resolveEffect_mk]
  simp [Effect.isEmpty_mk]

/-- Witness for C8: one dispatch through the incrementing reducer changes
the state from 0 to 1 and delivers exactly one notification to the
subscriber, carrying the final state. -/
theorem c8_send_notifications_witness :
    ({ c8Store with state := 1 } : RootStore Nat Nat).callbacks = c8Store.callbacks
    ∧ [("sub", (1 : Nat))] = c8Store.callbacks.map (fun i => (i, (1 : Nat)))
    ∧ ([("sub", (1 : Nat))].countP (fun p => p.1 == "sub")) = 1 := by
  have hact : processAction c8Store 7 = ({ c8Store with state := 1 }, []) := by
    rw [processAction]
    have hred : c8Store.reducer c8Store.state 7 = (1, Effect.noneE) := rfl
    rw [hred]
    simp only
    rw [resolveEffect_noneE]
    rfl
  have hd : drainQueue 1 c8Store [7] = some { c8Store with state := 1 } := by
    rw [drainQueue]
    simp only
    rw [hact]
    show drainQueue 0 { c8Store with state := 1 } ([] ++ []) =
      some { c8Store with state := 1 }
    rfl
  have hsend : send 1 c8Store 7 =
      some ({ c8Store with state := 1 }, [("sub", (1 : Nat))]) := by
    rw [send, hd]
    simp only
    rw [if_neg (by simp [c8Store])]
    rfl
  have h := c8_send_notifications 1 c8Store 7 { c8Store with state := 1 }
    [("sub", (1 : Nat))] hsend
  refine ⟨h.1, ?_, ?_⟩
  · exact h.2.2.1 (by simp [c8Store])
  · exact h.2.2.2 (by simp [c8Store]) (by decide) "sub" (by decide)

/-- A fresh root store for the C1 exhibit. -/
def c1Store : RootStore Nat Nat :=
  { state := 0, reducer := emptyReduce, namedEffects := [], effectTree := .empty,
    ctxCancelled := [], nextCtx := 0, callbacks := [] }

/-- A resolved long-running effect carrying id `"poll"` at the root scope. -/
def c1Poll : ResolvedEffect Nat := .longRunning (some "poll") [] [1]

/-- Claim C1 (exhibit of the divergence): no branch of
`processResolvedEffect` ever inserts into the named-effects map — it is
preserved verbatim by every resolved unit — so on a fresh store the map is
empty forever, and processing a second long-running effect under the same
id `"poll"` cancels nothing: after both units are processed, no context was
ever cancelled (in particular the first `"poll"` context, id `0`, has its
flag still unset when the second begins), while both contexts were
registered in the effect tree at the root scope. -/
theorem c1_namedEffects_never_populated :
    (∀ (σ α : Type) (st : RootStore σ α) (x : ResolvedEffect α),
        ((processResolvedEffect st x).1).namedEffects = st.namedEffects)
    ∧ ((processResolvedEffect ((processResolvedEffect c1Store c1Poll).1) c1Poll).1
        ).ctxCancelled = []
    ∧ ((processResolvedEffect ((processResolvedEffect c1Store c1Poll).1) c1Poll).1
        ).namedEffects = []
    ∧ ((processResolvedEffect ((processResolvedEffect c1Store c1Poll).1) c1Poll).1
        ).nextCtx = 2
    ∧ ((processResolvedEffect ((processResolvedEffect c1Store c1Poll).1) c1Poll).1
        ).effectTree = .mk [0, 1] [] := by
  have hadd : ∀ (cs : List Nat) (ctx : Nat),
      (EffectContextTree.mk cs []).add ctx false [] = .mk (cs ++ [ctx]) [] := by
    intro cs ctx
    rw [EffectContextTree.add]
  have hlr1 : processResolvedEffect c1Store c1Poll =
      ({ c1Store with
          effectTree := EffectContextTree.empty.add 0 (([] : List Nat).contains 0) [],
          nextCtx := 1 }, []) := rfl
  have h1 : processResolvedEffect c1Store c1Poll =
      ({ c1Store with effectTree := .mk [0] [], nextCtx := 1 }, []) := by
    rw [hlr1]
    rw [show ([] : List Nat).contains 0 = false from rfl]
    rw [show EffectContextTree.empty = EffectContextTree.mk [] [] from rfl, hadd]
    rfl
  have hlr2 : processResolvedEffect
      ({ c1Store with effectTree := .mk [0] [], nextCtx := 1 } : RootStore Nat Nat)
      c1Poll =
      ({ c1Store with
          effectTree := (EffectContextTree.mk [0] []).add 1 (([] : List Nat).contains 1) [],
          nextCtx := 2 }, []) := rfl
  have h2 : processResolvedEffect
      ({ c1Store with effectTree := .mk [0] [], nextCtx := 1 } : RootStore Nat Nat)
      c1Poll = ({ c1Store with effectTree := .mk [0, 1] [], nextCtx := 2 }, []) := by
    rw [hlr2]
    rw [show ([] : List Nat).contains 1 = false from rfl]
    rw [hadd]
    rfl
  have h1p : (processResolvedEffect c1Store c1Poll).1 =
      { c1Store with effectTree := .mk [0] [], nextCtx := 1 } := by rw [h1]
  have h2p : (processResolvedEffect
      ({ c1Store with effectTree := .mk [0] [], nextCtx := 1 } : RootStore Nat Nat)
      c1Poll).1 = { c1Store with effectTree := .mk [0, 1] [], nextCtx := 2 } := by
    rw [h2]
  refine ⟨fun σ α st x => processResolvedEffect_namedEffects st x, ?_, ?_, ?_, ?_⟩ <;>
    (rw [h1p, h2p]; try rfl)

end JSCA
